import Mathlib

/-!
Shallow embedding of the retrieval-and-analytics core of the
AI-Powered-Financial-Data-Assistant repository:

* `services/summarizer_service.py` (`TransactionSummarizer`),
* `services/embedding_service.py` (`EmbeddingService`),
* `services/vector_search_service.py` (`VectorSearchService`).

Python floats are modelled by `ℚ`; Python `round(x, 2)` is modelled by
round-half-to-even at two decimal places; Python dicts keyed by first
occurrence (`defaultdict` insertion order) are modelled by association
lists updated in place or appended at the end.
-/

namespace FinAssist

/-- Round-half-to-even to the nearest integer, modelling Python's
built-in `round` on a number `q`. -/
def rhe (q : ℚ) : ℤ :=
  if Int.fract q < 1/2 then ⌊q⌋
  else if 1/2 < Int.fract q then ⌊q⌋ + 1
  else if ⌊q⌋ % 2 = 0 then ⌊q⌋ else ⌊q⌋ + 1

/-- Python's `round(q, 2)`: round to two decimal places, ties to even. -/
def round2 (q : ℚ) : ℚ := (rhe (100 * q) : ℚ) / 100

/-- A transaction record.  Each field is `Option`-valued: Python code
reads fields with `dict.get`, supplying a default when the key is
absent (`none`). -/
structure Txn where
  id : Option String := none
  user_id : Option String := none
  category : Option String := none
  subcategory : Option String := none
  merchant : Option String := none
  description : Option String := none
  amount : Option ℚ := none
  currency : Option String := none
  type : Option String := none
  payment_method : Option String := none
  notes : Option String := none
  timestamp : Option String := none
deriving DecidableEq, Repr

/-- Per-category accumulator (`category_stats[cat]`), created by
`defaultdict(lambda: {"count": 0, "total": 0, "transactions": []})`. -/
structure CatStat where
  count : ℕ := 0
  total : ℚ := 0
  transactions : List Txn := []
deriving DecidableEq, Repr

/-- Per-user accumulator (`user_stats[uid]`), created by
`defaultdict(lambda: {"count": 0, "debit": 0, "credit": 0})`. -/
structure UserStat where
  count : ℕ := 0
  debit : ℚ := 0
  credit : ℚ := 0
deriving DecidableEq, Repr

/-- Update the entry for `key` in an insertion-ordered association
list, or append a freshly initialised entry: the semantics of mutating
`d[key]` for a Python `defaultdict` `d` with default value `dflt`. -/
def bump {α : Type} (key : String) (dflt : α) (f : α → α) :
    List (String × α) → List (String × α)
  | [] => [(key, f dflt)]
  | (k, v) :: rest =>
      if k = key then (k, f v) :: rest else (k, v) :: bump key dflt f rest

/-- Accumulator state of the transaction-processing loop in
`TransactionSummarizer.summarize_transactions` (the `monthly_stats`
rollup is also computed by the source but never read afterwards, so it
is omitted). -/
structure Acc where
  category_stats : List (String × CatStat) := []
  user_stats : List (String × UserStat) := []
  payment_method_stats : List (String × ℕ) := []
  total_debit : ℚ := 0
  total_credit : ℚ := 0
deriving DecidableEq, Repr

/-- One iteration of the `for txn in transactions` loop of
`summarize_transactions`. -/
def step (acc : Acc) (txn : Txn) : Acc :=
  let amount := txn.amount.getD 0
  let category := txn.category.getD "Unknown"
  let user_id := txn.user_id.getD "Unknown"
  let txn_type := txn.type.getD "debit"
  let payment_method := txn.payment_method.getD "Unknown"
  { category_stats :=
      bump category {}
        (fun s => { s with
          count := s.count + 1
          total := s.total + amount
          transactions := s.transactions ++ [txn] }) acc.category_stats
    user_stats :=
      bump user_id {}
        (fun s =>
          if txn_type = "debit" then
            { s with count := s.count + 1, debit := s.debit + amount }
          else
            { s with count := s.count + 1, credit := s.credit + amount })
        acc.user_stats
    payment_method_stats :=
      bump payment_method 0 (fun n => n + 1) acc.payment_method_stats
    total_debit :=
      if txn_type = "debit" then acc.total_debit + amount else acc.total_debit
    total_credit :=
      if txn_type = "debit" then acc.total_credit else acc.total_credit + amount }

/-- The full processing loop of `summarize_transactions`. -/
def rollup (transactions : List Txn) : Acc :=
  transactions.foldl step {}

/-- `overview` block of the summary. -/
structure Overview where
  total_transactions : ℕ
  total_debit : ℚ
  total_credit : ℚ
  net_balance : ℚ
  average_transaction : ℚ
deriving DecidableEq, Repr

/-- One `by_category` entry of the summary. -/
structure CatSummary where
  count : ℕ
  total_amount : ℚ
  average_amount : ℚ
deriving DecidableEq, Repr

/-- One `top_categories` entry of the summary. -/
structure TopCat where
  category : String
  total_amount : ℚ
  transaction_count : ℕ
deriving DecidableEq, Repr

/-- One `by_user` entry of the summary. -/
structure UserSummary where
  transaction_count : ℕ
  total_debit : ℚ
  total_credit : ℚ
  net_balance : ℚ
deriving DecidableEq, Repr

/-- `insights` block of the summary. -/
structure Insights where
  top_spending_category : String
  top_spending_amount : ℚ
  savings_rate : ℚ
deriving DecidableEq, Repr

/-- The non-sentinel summary dictionary built by
`summarize_transactions`. -/
structure Report where
  overview : Overview
  by_category : List (String × CatSummary)
  top_categories : List TopCat
  by_user : List (String × UserSummary)
  by_payment_method : List (String × ℕ)
  insights : Insights
deriving DecidableEq, Repr

/-- Result of `summarize_transactions`: either the empty-collection
sentinel dictionary `{"message": ...}` or the full report. -/
inductive Summary where
  | sentinel (message : String)
  | report (r : Report)
deriving DecidableEq, Repr

/-- One comparison step of Python's `max(..., key=lambda x: x[1])`: the
current best is replaced only on a strict increase of the key. -/
def pyMaxStep (best y : String × ℚ) : String × ℚ :=
  if best.2 < y.2 then y else best

/-- Python's `max(l, key=lambda x: x[1], default=dflt)`: the first
element with maximal second component, or `dflt` on an empty list. -/
def pyMaxSnd (dflt : String × ℚ) : List (String × ℚ) → String × ℚ
  | [] => dflt
  | x :: xs => xs.foldl pyMaxStep x

/-- Stable descending insertion (by `total`), used to model Python's
stable `sorted(category_stats.items(), key=..., reverse=True)`. -/
def insertDesc (x : String × CatStat) :
    List (String × CatStat) → List (String × CatStat)
  | [] => [x]
  | y :: ys => if y.2.total < x.2.total then x :: y :: ys else y :: insertDesc x ys

/-- Stable sort of the category rollup by total, descending. -/
def sortByTotalDesc (l : List (String × CatStat)) : List (String × CatStat) :=
  l.foldr insertDesc []

/-- The `[(cat, stats['total']) for cat, stats in category_stats.items()
if cat != 'Income']` comprehension feeding the `top_spending_category`
computation. -/
def nonIncomeTotals (transactions : List Txn) : List (String × ℚ) :=
  (((rollup transactions).category_stats.filter (fun p => p.1 != "Income")).map
    (fun p => (p.1, p.2.total)))

/-- The summary dictionary built by `summarize_transactions` for a
non-empty input. -/
def mkReport (transactions : List Txn) : Report :=
  let acc := rollup transactions
  let total_count := transactions.length
  let top_categories := (sortByTotalDesc acc.category_stats).take 5
  let top_spending_category := pyMaxSnd ("None", 0) (nonIncomeTotals transactions)
  { overview :=
      { total_transactions := total_count
        total_debit := round2 acc.total_debit
        total_credit := round2 acc.total_credit
        net_balance := round2 (acc.total_credit - acc.total_debit)
        average_transaction :=
          round2 ((acc.total_debit + acc.total_credit) / total_count) }
    by_category := acc.category_stats.map
      (fun p =>
        (p.1, { count := p.2.count
                total_amount := round2 p.2.total
                average_amount := round2 (p.2.total / p.2.count) }))
    top_categories := top_categories.map
      (fun p =>
        { category := p.1
          total_amount := round2 p.2.total
          transaction_count := p.2.count })
    by_user := acc.user_stats.map
      (fun p =>
        (p.1, { transaction_count := p.2.count
                total_debit := round2 p.2.debit
                total_credit := round2 p.2.credit
                net_balance := round2 (p.2.credit - p.2.debit) }))
    by_payment_method := acc.payment_method_stats
    insights :=
      { top_spending_category := top_spending_category.1
        top_spending_amount := round2 top_spending_category.2
        savings_rate :=
          if 0 < acc.total_credit then
            round2 ((acc.total_credit - acc.total_debit) / acc.total_credit * 100)
          else 0 } }

/-- `TransactionSummarizer.summarize_transactions`. -/
def summarize_transactions (transactions : List Txn) : Summary :=
  if transactions.isEmpty then Summary.sentinel "No transactions to summarize"
  else Summary.report (mkReport transactions)

/-- Accumulated (pre-rounding) debit total of a collection. -/
def totalDebit (transactions : List Txn) : ℚ := (rollup transactions).total_debit

/-- Accumulated (pre-rounding) credit total of a collection. -/
def totalCredit (transactions : List Txn) : ℚ := (rollup transactions).total_credit

/-- Left-pad a digit string with zeros to length `k`. -/
def padZeros (k : ℕ) (s : String) : String :=
  if s.length < k then String.mk (List.replicate (k - s.length) '0') ++ s else s

/-- Insert a comma after every three characters of a reversed digit
list (helper for thousands grouping). -/
def commaGroupRev : List Char → List Char
  | c1 :: c2 :: c3 :: c4 :: rest => c1 :: c2 :: c3 :: ',' :: commaGroupRev (c4 :: rest)
  | l => l
termination_by l => l.length

/-- Thousands grouping of a digit string, as in Python's `,` format
specifier. -/
def commaGroup (s : String) : String :=
  String.mk (commaGroupRev s.data.reverse).reverse

/-- Python's `:,.2f` format applied to a number: round to two decimals
(ties to even), two fractional digits, commas grouping the integer
part. -/
def fmt2 (q : ℚ) : String :=
  let c : ℤ := rhe (100 * q)
  let sign := if c < 0 then "-" else ""
  let m := c.natAbs
  sign ++ commaGroup (toString (m / 100)) ++ "." ++ padZeros 2 (toString (m % 100))

/-- The smallest decimal exponent `k ≤ 20` with `d ∣ 10 ^ k`, if any. -/
def decExp (d : ℕ) : Option ℕ := (List.range 21).find? (fun k => decide (d ∣ 10 ^ k))

/-- Decimal rendering of a rational number, modelling Python's default
string conversion of the numeric values it interpolates (an integral
value renders with no decimal point, as for the `int` fallbacks the
source uses). -/
def ratRepr (q : ℚ) : String :=
  match decExp q.den with
  | some 0 => toString q.num
  | some (k + 1) =>
      let sign := if q.num < 0 then "-" else ""
      let m := q.num.natAbs * (10 ^ (k + 1) / q.den)
      sign ++ toString (m / 10 ^ (k + 1)) ++ "." ++
        padZeros (k + 1) (toString (m % 10 ^ (k + 1)))
  | none => toString q.num ++ "/" ++ toString q.den

/-- One line of the `for i, cat in enumerate(summary['top_categories'][:3], 1)`
loop of `generate_text_summary`. -/
def topCatLine (i : ℕ) (c : TopCat) : String :=
  "  " ++ toString i ++ ". " ++ c.category ++ ": ₹" ++ fmt2 c.total_amount ++
    " (" ++ toString c.transaction_count ++ " transactions)\n"

/-- The f-string assembled by `generate_text_summary` for a non-sentinel
summary, before the final `strip()`. -/
def renderBody (r : Report) : String :=
  "\n📊 Financial Summary\n" ++ String.mk (List.replicate 50 '=') ++
  "\n\nOverview:\n" ++
  "  • Total Transactions: " ++ toString r.overview.total_transactions ++ "\n" ++
  "  • Total Spent: ₹" ++ fmt2 r.overview.total_debit ++ "\n" ++
  "  • Total Earned: ₹" ++ fmt2 r.overview.total_credit ++ "\n" ++
  "  • Net Balance: ₹" ++ fmt2 r.overview.net_balance ++ "\n" ++
  "  • Average Transaction: ₹" ++ fmt2 r.overview.average_transaction ++ "\n" ++
  "\nTop Spending Categories:\n" ++
  String.join ((r.top_categories.take 3).enum.map (fun p => topCatLine (p.1 + 1) p.2)) ++
  "\nKey Insights:\n" ++
  "  • Highest spending category: " ++ r.insights.top_spending_category ++
    " (₹" ++ fmt2 r.insights.top_spending_amount ++ ")\n" ++
  "  • Savings rate: " ++ ratRepr r.insights.savings_rate ++ "%\n\n"

/-- `TransactionSummarizer.generate_text_summary`: returns the sentinel
message verbatim when `"message" in summary`, otherwise the rendered
(and stripped) report text. -/
def generate_text_summary (transactions : List Txn) : String :=
  match summarize_transactions transactions with
  | Summary.sentinel m => m
  | Summary.report r => (renderBody r).trim

/-! ## Embedding service (`services/embedding_service.py`) -/

/-- The `parts` list assembled by
`EmbeddingService.create_transaction_text`. -/
def segments (t : Txn) : List String :=
  [ t.description.getD "",
    t.category.getD "",
    t.subcategory.getD "",
    t.merchant.getD "",
    "Amount: " ++ ratRepr (t.amount.getD 0) ++ " " ++ t.currency.getD "INR",
    "Type: " ++ t.type.getD "",
    "Payment: " ++ t.payment_method.getD "",
    t.notes.getD "" ]

/-- `EmbeddingService.create_transaction_text`:
`" | ".join([p for p in parts if p])`. -/
def create_transaction_text (t : Txn) : String :=
  " | ".intercalate ((segments t).filter (fun p => p ≠ ""))

/-- The similarity score attached to each search result:
`1 / (1 + distance)`. -/
def simScore (distance : ℚ) : ℚ := 1 / (1 + distance)

/-- One entry of the list returned by `EmbeddingService.search`: a copy
of the stored transaction dict extended with `similarity_score` and
`distance`. -/
structure SearchResult where
  txn : Txn
  similarity_score : ℚ
  distance : ℚ
deriving DecidableEq, Repr

/-- The label row returned by FAISS `IndexFlatL2.search(query, k)`,
modelled from the library's documented contract: the ids of the `k`
nearest stored vectors in ascending-distance order (`ranking` is that
full ordering for the query at hand), padded with the sentinel label
`-1` when fewer than `k` vectors are stored. -/
def faissLabels (ranking : List ℕ) (k : ℕ) : List ℤ :=
  (ranking.take k).map Int.ofNat ++ List.replicate (k - ranking.length) (-1)

/-- The FAISS padding distance used for the `-1` padding slots
(`FLT_MAX`, i.e. `3.4028235 × 10^38`). -/
def faissPadDist : ℚ := 34028235 * 10 ^ 31

/-- The distance row returned by FAISS, aligned with `faissLabels`:
`dists` is the ascending list of true distances aligned with
`ranking`. -/
def faissDists (dists : List ℚ) (k : ℕ) : List ℚ :=
  dists.take k ++ List.replicate (k - dists.length) faissPadDist

/-- Python list indexing `l[i]`, including negative-index wraparound;
`none` models an `IndexError`. -/
def pyGet {α : Type} (l : List α) (i : ℤ) : Option α :=
  if 0 ≤ i then l.get? i.toNat
  else if (-i).toNat ≤ l.length then l.get? (l.length - (-i).toNat) else none

/-- State of an `EmbeddingService`: whether `self.index` is non-`None`,
and the stored `self.transactions` metadata list. -/
structure EmbState where
  index_built : Bool
  transactions : List Txn
deriving DecidableEq, Repr

/-- The exceptions raised by the two search entry points:
`ValueError("Index not built...")` and
`RuntimeError("Search service not initialized...")`. -/
inductive SvcError where
  | indexNotBuilt
  | notReady
deriving DecidableEq, Repr

/-- The result-assembly loop of `EmbeddingService.search`:
`for idx, distance in zip(indices[0], distances[0]): if idx < len(transactions): ...`.
Note the guard does not exclude the FAISS padding label `-1`, which
Python then resolves by negative indexing. -/
def embGather (transactions : List Txn) (rows : List (ℤ × ℚ)) : List SearchResult :=
  rows.filterMap (fun p =>
    if p.1 < (transactions.length : ℤ) then
      (pyGet transactions p.1).map
        (fun t => { txn := t, similarity_score := simScore p.2, distance := p.2 })
    else none)

/-- `EmbeddingService.search` with the external embedding + FAISS call
abstracted by the query's `ranking`/`dists` data. -/
def EmbeddingService.search (st : EmbState) (ranking : List ℕ) (dists : List ℚ)
    (top_k : ℕ) : Except SvcError (List SearchResult) :=
  if st.index_built then
    Except.ok (embGather st.transactions
      ((faissLabels ranking top_k).zip (faissDists dists top_k)))
  else Except.error SvcError.indexNotBuilt

/-! ## Vector search service (`services/vector_search_service.py`) -/

/-- State of a `VectorSearchService`: the `is_ready` flag set by
`initialize`, plus the wrapped embedding service. -/
structure VSSState where
  is_ready : Bool
  emb : EmbState
deriving DecidableEq, Repr

/-- Python truthiness of an optional string filter argument. -/
def pyTruthy : Option String → Bool
  | none => false
  | some s => !(s == "")

/-- The conjunction of the four `continue` guards of the filtering loop
in `VectorSearchService.search` (`true` means the candidate is kept). -/
def keepTxn (user_id category : Option String) (min_amount max_amount : Option ℚ)
    (r : SearchResult) : Bool :=
  (if pyTruthy user_id then r.txn.user_id == user_id else true) &&
  (if pyTruthy category then r.txn.category == category else true) &&
  (match min_amount with
   | none => true
   | some m => !(r.txn.amount.getD 0 < m)) &&
  (match max_amount with
   | none => true
   | some m => !(m < r.txn.amount.getD 0))

/-- The filtering loop of `VectorSearchService.search`: append each
candidate passing all filters, breaking once `top_k` results are
collected. -/
def filterResults (keep : SearchResult → Bool) (top_k : ℕ)
    (acc : List SearchResult) : List SearchResult → List SearchResult
  | [] => acc
  | r :: rest =>
      if keep r then
        if top_k ≤ acc.length + 1 then acc ++ [r]
        else filterResults keep top_k (acc ++ [r]) rest
      else filterResults keep top_k acc rest

/-- The oversampled candidate list `VectorSearchService.search` obtains
from `self.embedding_service.search(query, top_k=top_k * 2)`. -/
def candidatesOf (st : VSSState) (ranking : List ℕ) (dists : List ℚ)
    (top_k : ℕ) : List SearchResult :=
  embGather st.emb.transactions
    ((faissLabels ranking (top_k * 2)).zip (faissDists dists (top_k * 2)))

/-- `VectorSearchService.search`. -/
def VectorSearchService.search (st : VSSState) (ranking : List ℕ) (dists : List ℚ)
    (top_k : ℕ) (user_id category : Option String)
    (min_amount max_amount : Option ℚ) : Except SvcError (List SearchResult) :=
  if st.is_ready then
    match EmbeddingService.search st.emb ranking dists (top_k * 2) with
    | Except.error e => Except.error e
    | Except.ok results =>
        Except.ok (filterResults (keepTxn user_id category min_amount max_amount)
          top_k [] results)
  else Except.error SvcError.notReady

/-! ## Derived accessors and concrete instances used by the claims -/

/-- The accumulated total of the category rollup entry for `c`
(`0` when `c` never occurs), read off through the association list. -/
def catTotalOf (acc : Acc) (c : String) : ℚ :=
  ((acc.category_stats.find? (fun p => p.1 == c)).map (fun p => p.2.total)).getD 0

/-- The three-transaction example collection of the specification's
"Testable properties" section. -/
def exTxns : List Txn :=
  [ { amount := some 100, type := some "debit", category := some "Food" },
    { amount := some 200, type := some "debit", category := some "Food" },
    { amount := some 1000, type := some "credit", category := some "Income" } ]

/-- A transaction collection whose only category is `Income`. -/
def incomeOnlyTxns : List Txn :=
  [ { amount := some 1000, type := some "credit", category := some "Income" } ]

/-- A transaction dict with every field absent. -/
def tEmpty : Txn := {}

/-- A single stored transaction for the `k > ntotal` search scenario. -/
def tOnly : Txn := { id := some "t1", description := some "only txn" }

/-- An embedding-service state holding one indexed transaction. -/
def embOne : EmbState := { index_built := true, transactions := [tOnly] }

/-- A ready vector-search-service state over one stored transaction with
amount `5`. -/
def vssOne : VSSState :=
  { is_ready := true
    emb := { index_built := true
             transactions := [{ id := some "t2", amount := some 5 }] } }

/-! ## Rounding lemmas -/

theorem rhe_abs (q : ℚ) : |(rhe q : ℚ) - q| ≤ 1/2 := by
  have h0 : (0:ℚ) ≤ Int.fract q := Int.fract_nonneg q
  have h1 : Int.fract q < 1 := Int.fract_lt_one q
  have hf : (⌊q⌋ : ℚ) + Int.fract q = q := Int.floor_add_fract q
  rw [abs_le]
  by_cases hlt : Int.fract q < 1/2
  · rw [rhe, if_pos hlt]; constructor <;> push_cast <;> linarith
  · by_cases hgt : 1/2 < Int.fract q
    · rw [rhe, if_neg hlt, if_pos hgt]; constructor <;> push_cast <;> linarith
    · have heq : Int.fract q = 1/2 := le_antisymm (not_lt.1 hgt) (not_lt.1 hlt)
      rw [rhe, if_neg hlt, if_neg hgt]
      by_cases hpar : ⌊q⌋ % 2 = 0
      · rw [if_pos hpar]; constructor <;> push_cast <;> linarith
      · rw [if_neg hpar]; constructor <;> push_cast <;> linarith

theorem round2_abs (q : ℚ) : |round2 q - q| ≤ 1/200 := by
  have h := rhe_abs (100 * q)
  rw [round2]
  have he : (rhe (100*q) : ℚ)/100 - q = ((rhe (100*q) : ℚ) - 100*q)/100 := by ring
  rw [he, abs_div, abs_of_pos (by norm_num : (0:ℚ) < 100)]
  linarith

theorem map_round2_sum_eq (l : List ℚ) :
    (l.map round2).sum = (((l.map (fun q => rhe (100 * q))).sum : ℤ) : ℚ) / 100 := by
  induction l with
  | nil => simp
  | cons x xs ih =>
      simp only [List.map_cons, List.sum_cons, ih, round2]
      push_cast
      ring

theorem map_round2_sum_abs (l : List ℚ) :
    |(l.map round2).sum - l.sum| ≤ l.length * (1/200) := by
  induction l with
  | nil => simp
  | cons x xs ih =>
      have hx := round2_abs x
      simp only [List.map_cons, List.sum_cons, List.length_cons]
      have hsplit : round2 x + (xs.map round2).sum - (x + xs.sum)
          = (round2 x - x) + ((xs.map round2).sum - xs.sum) := by ring
      rw [hsplit]
      have := abs_add (round2 x - x) ((xs.map round2).sum - xs.sum)
      push_cast
      linarith

/-! ## Rollup invariants -/

theorem bump_total_sum (key : String) (amt : ℚ) (f : CatStat → CatStat)
    (hf : ∀ s, (f s).total = s.total + amt) :
    ∀ l : List (String × CatStat),
      ((bump key {} f l).map (fun p => p.2.total)).sum
        = ((l.map (fun p => p.2.total)).sum) + amt
  | [] => by simp [bump, hf]
  | (k, v) :: rest => by
      by_cases h : k = key
      · simp only [bump, if_pos h, List.map_cons, List.sum_cons, hf]; ring
      · simp only [bump, if_neg h, List.map_cons, List.sum_cons,
          bump_total_sum key amt f hf rest]
        ring

theorem step_total_sum (acc : Acc) (t : Txn) :
    (((step acc t).category_stats.map (fun p => p.2.total)).sum)
      = ((acc.category_stats.map (fun p => p.2.total)).sum) + t.amount.getD 0 := by
  simp only [step]
  exact bump_total_sum _ _ _ (fun s => rfl) _

theorem step_debit_credit (acc : Acc) (t : Txn) :
    (step acc t).total_debit + (step acc t).total_credit
      = acc.total_debit + acc.total_credit + t.amount.getD 0 := by
  simp only [step]
  by_cases h : t.type.getD "debit" = "debit" <;> simp only [if_pos, if_neg, h,
    if_true, if_false] <;> ring

theorem foldl_total_sum :
    ∀ (l : List Txn) (acc : Acc),
      ((l.foldl step acc).category_stats.map (fun p => p.2.total)).sum
          - ((l.foldl step acc).total_debit + (l.foldl step acc).total_credit)
        = (acc.category_stats.map (fun p => p.2.total)).sum
          - (acc.total_debit + acc.total_credit)
  | [], _ => rfl
  | t :: ts, acc => by
      rw [List.foldl_cons, foldl_total_sum ts (step acc t), step_total_sum,
        step_debit_credit]
      ring

theorem rollup_sum_eq (txns : List Txn) :
    (((rollup txns).category_stats.map (fun p => p.2.total)).sum)
      = (rollup txns).total_debit + (rollup txns).total_credit := by
  have h := foldl_total_sum txns {}
  simp only [rollup]
  norm_num at h
  linarith [h]

theorem bump_ne_nil {α : Type} (key : String) (dflt : α) (f : α → α) :
    ∀ l, bump key dflt f l ≠ []
  | [] => by simp [bump]
  | (k, v) :: rest => by
      by_cases h : k = key <;> simp [bump, h]

theorem foldl_cat_ne_nil :
    ∀ (l : List Txn) (acc : Acc), acc.category_stats ≠ [] →
      (l.foldl step acc).category_stats ≠ []
  | [], _, h => h
  | t :: ts, acc, _ =>
      foldl_cat_ne_nil ts (step acc t)
        (by simp only [step]; exact bump_ne_nil _ _ _ _)

theorem rollup_cat_ne_nil (txns : List Txn) (h : txns ≠ []) :
    (rollup txns).category_stats ≠ [] := by
  match txns, h with
  | t :: ts, _ =>
      simp only [rollup, List.foldl_cons]
      exact foldl_cat_ne_nil ts (step {} t)
        (by simp only [step]; exact bump_ne_nil _ _ _ _)

theorem summarize_report_inv (txns : List Txn) (r : Report)
    (h : summarize_transactions txns = Summary.report r) :
    r = mkReport txns ∧ txns ≠ [] := by
  by_cases he : txns.isEmpty
  · rw [summarize_transactions, if_pos he] at h
    exact absurd h (by simp)
  · rw [summarize_transactions, if_neg he] at h
    injection h with h'
    exact ⟨h'.symm, by simpa [List.isEmpty_iff] using he⟩

theorem step_total_debit (acc : Acc) (t : Txn) :
    (step acc t).total_debit
      = if t.type.getD "debit" = "debit"
        then acc.total_debit + t.amount.getD 0 else acc.total_debit := rfl

theorem step_total_credit (acc : Acc) (t : Txn) :
    (step acc t).total_credit
      = if t.type.getD "debit" = "debit"
        then acc.total_credit else acc.total_credit + t.amount.getD 0 := rfl

theorem foldl_debit_credit_nonneg :
    ∀ (l : List Txn) (acc : Acc), (∀ t ∈ l, 0 ≤ t.amount.getD 0) →
      0 ≤ acc.total_debit → 0 ≤ acc.total_credit →
      0 ≤ (l.foldl step acc).total_debit ∧ 0 ≤ (l.foldl step acc).total_credit
  | [], _, _, hd, hc => ⟨hd, hc⟩
  | t :: ts, acc, h, hd, hc => by
      rw [List.foldl_cons]
      have hat : 0 ≤ t.amount.getD 0 := h t (List.mem_cons_self t ts)
      refine foldl_debit_credit_nonneg ts (step acc t)
        (fun x hx => h x (List.mem_cons_of_mem t hx)) ?_ ?_
      · rw [step_total_debit]; split <;> linarith
      · rw [step_total_credit]; split <;> linarith

theorem rollup_debit_credit_nonneg (txns : List Txn)
    (h : ∀ t ∈ txns, 0 ≤ t.amount.getD 0) :
    0 ≤ (rollup txns).total_debit ∧ 0 ≤ (rollup txns).total_credit :=
  foldl_debit_credit_nonneg txns {} h le_rfl le_rfl

theorem round2_le_100 (x : ℚ) (hx : x ≤ 100) : round2 x ≤ 100 := by
  have h := abs_le.1 (rhe_abs (100 * x))
  rw [round2]
  have h3 : rhe (100 * x) ≤ 10000 := by
    by_contra hcon
    push_neg at hcon
    have : (10001 : ℚ) ≤ (rhe (100 * x) : ℚ) := by exact_mod_cast hcon
    linarith [h.2]
  have h4 : (rhe (100 * x) : ℚ) ≤ 10000 := by exact_mod_cast h3
  linarith

theorem round2_zero : round2 0 = 0 := by
  rw [round2]
  norm_num [rhe]

/-! ## Python `max` with key and first-wins tie-break -/

theorem pyMax_foldl_spec :
    ∀ (xs : List (String × ℚ)) (b : String × ℚ),
      b.2 ≤ (xs.foldl pyMaxStep b).2 ∧
      (∀ q ∈ xs, q.2 ≤ (xs.foldl pyMaxStep b).2) ∧
      (xs.foldl pyMaxStep b = b ∨
        ∃ pre post, xs = pre ++ (xs.foldl pyMaxStep b) :: post ∧
          b.2 < (xs.foldl pyMaxStep b).2 ∧
          ∀ q ∈ pre, q.2 < (xs.foldl pyMaxStep b).2)
  | [], b => ⟨le_refl _, by simp, Or.inl rfl⟩
  | y :: ys, b => by
      rw [List.foldl_cons]
      by_cases h : b.2 < y.2
      · have hstep : pyMaxStep b y = y := if_pos h
        rw [hstep]
        obtain ⟨h1, h2, h3⟩ := pyMax_foldl_spec ys y
        refine ⟨le_of_lt (lt_of_lt_of_le h h1), ?_, ?_⟩
        · intro q hq
          rcases List.mem_cons.1 hq with rfl | hq'
          · exact h1
          · exact h2 q hq'
        · rcases h3 with heq | ⟨pre, post, hsplit, hlt, hpre⟩
          · right
            refine ⟨[], ys, ?_, ?_, by simp⟩
            · rw [heq]; rfl
            · rw [heq]; exact h
          · right
            refine ⟨y :: pre, post, by rw [List.cons_append, ← hsplit],
              lt_trans h hlt, ?_⟩
            intro q hq
            rcases List.mem_cons.1 hq with rfl | hq'
            · exact hlt
            · exact hpre q hq'
      · have hstep : pyMaxStep b y = b := if_neg h
        rw [hstep]
        obtain ⟨h1, h2, h3⟩ := pyMax_foldl_spec ys b
        refine ⟨h1, ?_, ?_⟩
        · intro q hq
          rcases List.mem_cons.1 hq with rfl | hq'
          · exact le_trans (not_lt.1 h) h1
          · exact h2 q hq'
        · rcases h3 with heq | ⟨pre, post, hsplit, hlt, hpre⟩
          · exact Or.inl heq
          · right
            refine ⟨y :: pre, post, by rw [List.cons_append, ← hsplit], hlt, ?_⟩
            intro q hq
            rcases List.mem_cons.1 hq with rfl | hq'
            · exact lt_of_le_of_lt (not_lt.1 h) hlt
            · exact hpre q hq'

theorem pyMaxSnd_first_max (d x : String × ℚ) (xs : List (String × ℚ)) :
    (∀ q ∈ x :: xs, q.2 ≤ (pyMaxSnd d (x :: xs)).2) ∧
    ∃ pre post, x :: xs = pre ++ (pyMaxSnd d (x :: xs)) :: post ∧
      ∀ q ∈ pre, q.2 < (pyMaxSnd d (x :: xs)).2 := by
  obtain ⟨h1, h2, h3⟩ := pyMax_foldl_spec xs x
  have hdef : pyMaxSnd d (x :: xs) = xs.foldl pyMaxStep x := rfl
  rw [hdef]
  constructor
  · intro q hq
    rcases List.mem_cons.1 hq with rfl | hq'
    · exact h1
    · exact h2 q hq'
  · rcases h3 with heq | ⟨pre, post, hsplit, hlt, hpre⟩
    · refine ⟨[], xs, ?_, by simp⟩
      rw [heq]; rfl
    · refine ⟨x :: pre, post, by rw [List.cons_append, ← hsplit], ?_⟩
      intro q hq
      rcases List.mem_cons.1 hq with rfl | hq'
      · exact hlt
      · exact hpre q hq'

/-! ## Association-list key uniqueness and per-category totals -/

theorem bump_keys {α : Type} (key : String) (dflt : α) (f : α → α) :
    ∀ l : List (String × α),
      (bump key dflt f l).map Prod.fst
        = l.map Prod.fst ++ (if key ∈ l.map Prod.fst then [] else [key])
  | [] => by simp [bump]
  | (k, v) :: rest => by
      by_cases h : k = key
      · simp [bump, h]
      · have ih := bump_keys key dflt f rest
        by_cases hm : key ∈ rest.map Prod.fst
        · have hm' : key ∈ ((k, v) :: rest).map Prod.fst := by simp [hm]
          rw [List.map_cons] at hm' ⊢
          simp only [bump, if_neg h, List.map_cons, ih, if_pos hm, if_pos hm']
          simp
        · have hm' : key ∉ ((k, v) :: rest).map Prod.fst := by
            simp only [List.map_cons, List.mem_cons, not_or]
            exact ⟨fun hk => h hk.symm, hm⟩
          rw [List.map_cons] at hm' ⊢
          simp only [bump, if_neg h, List.map_cons, ih, if_neg hm, if_neg hm']
          simp

theorem bump_keys_nodup {α : Type} (key : String) (dflt : α) (f : α → α)
    (l : List (String × α)) (h : (l.map Prod.fst).Nodup) :
    ((bump key dflt f l).map Prod.fst).Nodup := by
  rw [bump_keys]
  by_cases hm : key ∈ l.map Prod.fst
  · simpa [if_pos hm] using h
  · rw [if_neg hm]
    simp [List.nodup_append, h, hm]

theorem step_category_stats (acc : Acc) (t : Txn) :
    (step acc t).category_stats
      = bump (t.category.getD "Unknown") {}
          (fun s => { s with
            count := s.count + 1
            total := s.total + t.amount.getD 0
            transactions := s.transactions ++ [t] }) acc.category_stats := rfl

theorem rollup_keys_nodup (txns : List Txn) :
    (((rollup txns).category_stats).map Prod.fst).Nodup := by
  suffices h : ∀ (l : List Txn) (acc : Acc),
      ((acc.category_stats).map Prod.fst).Nodup →
      (((l.foldl step acc).category_stats).map Prod.fst).Nodup by
    exact h txns {} (by simp)
  intro l
  induction l with
  | nil => exact fun acc h => h
  | cons t ts ih =>
      intro acc h
      rw [List.foldl_cons]
      exact ih (step acc t)
        (by rw [step_category_stats]; exact bump_keys_nodup _ _ _ _ h)

theorem find?_eq_of_nodup_keys {α : Type} :
    ∀ (l : List (String × α)) (c : String) (s : α),
      (l.map Prod.fst).Nodup → (c, s) ∈ l →
      l.find? (fun p => p.1 == c) = some (c, s)
  | [], _, _, _, h => absurd h (List.not_mem_nil _)
  | (k, v) :: rest, c, s, hnd, hmem => by
      rcases List.mem_cons.1 hmem with heq | hmem'
      · cases heq
        exact List.find?_cons_of_pos _ (by simp)
      · have hk : ¬ k = c := by
          intro hkc
          subst hkc
          have hcm : k ∈ rest.map Prod.fst := by
            have := List.mem_map_of_mem Prod.fst hmem'
            simpa using this
          rw [List.map_cons, List.nodup_cons] at hnd
          exact hnd.1 hcm
        rw [List.find?_cons_of_neg _ (by simp [hk])]
        exact find?_eq_of_nodup_keys rest c s
          (by rw [List.map_cons, List.nodup_cons] at hnd; exact hnd.2) hmem'

theorem lookup_bump_total (key c : String) (amt : ℚ) (f : CatStat → CatStat)
    (hf : ∀ s, (f s).total = s.total + amt) :
    ∀ l : List (String × CatStat),
      (((bump key {} f l).find? (fun p => p.1 == c)).map
          (fun p => p.2.total)).getD 0
        = ((l.find? (fun p => p.1 == c)).map (fun p => p.2.total)).getD 0
          + (if c = key then amt else 0)
  | [] => by
      by_cases h : c = key
      · subst h
        simp [bump, List.find?_cons, hf]
      · rw [bump]
        rw [List.find?_cons_of_neg _ (by simp only [beq_iff_eq]; exact Ne.symm h)]
        simp [h]
  | (k, v) :: rest => by
      by_cases hk : k = key
      · subst hk
        by_cases hc : c = k
        · subst hc
          rw [bump, if_pos rfl]
          rw [List.find?_cons_of_pos _ (by simp),
            List.find?_cons_of_pos _ (by simp)]
          simp [hf]
        · rw [bump, if_pos rfl]
          rw [List.find?_cons_of_neg _ (by simp only [beq_iff_eq]; exact Ne.symm hc),
            List.find?_cons_of_neg _ (by simp only [beq_iff_eq]; exact Ne.symm hc)]
          simp [hc]
      · rw [bump, if_neg hk]
        by_cases hc : c = k
        · subst hc
          rw [List.find?_cons_of_pos _ (by simp),
            List.find?_cons_of_pos _ (by simp)]
          have : ¬ c = key := fun h => hk (h ▸ rfl)
          simp [this]
        · rw [List.find?_cons_of_neg _ (by simp only [beq_iff_eq]; exact Ne.symm hc),
            List.find?_cons_of_neg _ (by simp only [beq_iff_eq]; exact Ne.symm hc)]
          exact lookup_bump_total key c amt f hf rest

theorem step_catTotalOf (acc : Acc) (t : Txn) (c : String) :
    catTotalOf (step acc t) c
      = catTotalOf acc c
        + (if c = t.category.getD "Unknown" then t.amount.getD 0 else 0) := by
  rw [catTotalOf, catTotalOf, step_category_stats]
  exact lookup_bump_total _ _ _ _ (fun s => rfl) _

theorem foldl_catTotalOf :
    ∀ (l : List Txn) (acc : Acc) (c : String),
      catTotalOf (l.foldl step acc) c
        = catTotalOf acc c
          + ((l.filter (fun t => t.category.getD "Unknown" == c)).map
              (fun t => t.amount.getD 0)).sum
  | [], _, _ => by simp
  | t :: ts, acc, c => by
      rw [List.foldl_cons, foldl_catTotalOf ts (step acc t) c, step_catTotalOf]
      by_cases hc : t.category.getD "Unknown" = c
      · rw [List.filter_cons_of_pos (by simp [hc]), List.map_cons, List.sum_cons,
          if_pos hc.symm]
        ring
      · rw [List.filter_cons_of_neg (by simp [hc]),
          if_neg (fun h => hc h.symm)]
        ring

theorem rollup_total_characterization (txns : List Txn) (c : String) (s : CatStat)
    (hmem : (c, s) ∈ (rollup txns).category_stats) :
    s.total = ((txns.filter (fun t => t.category.getD "Unknown" == c)).map
      (fun t => t.amount.getD 0)).sum := by
  have hnd := rollup_keys_nodup txns
  have hfind := find?_eq_of_nodup_keys _ c s hnd hmem
  have h := foldl_catTotalOf txns {} c
  rw [show (txns.foldl step {}) = rollup txns from rfl] at h
  rw [catTotalOf, hfind] at h
  simpa [catTotalOf] using h

/-! ## Filtering-loop lemmas -/

theorem filterResults_decomp (keep : SearchResult → Bool) (k : ℕ) :
    ∀ (l acc : List SearchResult),
      ∃ l', filterResults keep k acc l = acc ++ l' ∧ l'.Sublist (l.filter keep)
  | [], acc => ⟨[], by simp [filterResults], by simp⟩
  | r :: rest, acc => by
      by_cases hk : keep r
      · by_cases hb : k ≤ acc.length + 1
        · refine ⟨[r], ?_, ?_⟩
          · simp only [filterResults, if_pos hk, if_pos hb]
          · rw [List.filter_cons_of_pos hk]
            exact (List.nil_sublist _).cons₂ r
        · obtain ⟨l', h1, h2⟩ := filterResults_decomp keep k rest (acc ++ [r])
          refine ⟨r :: l', ?_, ?_⟩
          · simp only [filterResults, if_pos hk, if_neg hb, h1,
              List.append_assoc, List.singleton_append]
          · rw [List.filter_cons_of_pos hk]
            exact h2.cons₂ r
      · obtain ⟨l', h1, h2⟩ := filterResults_decomp keep k rest acc
        refine ⟨l', ?_, ?_⟩
        · simp only [filterResults, if_neg hk, h1]
        · rw [List.filter_cons_of_neg hk]
          exact h2

theorem filterResults_length (keep : SearchResult → Bool) (k : ℕ) :
    ∀ (l acc : List SearchResult), acc.length < k →
      (filterResults keep k acc l).length ≤ k
  | [], acc, h => by
      simp only [filterResults]
      omega
  | r :: rest, acc, h => by
      by_cases hk : keep r
      · by_cases hb : k ≤ acc.length + 1
        · simp only [filterResults, if_pos hk, if_pos hb, List.length_append,
            List.length_cons, List.length_nil]
          omega
        · simp only [filterResults, if_pos hk, if_neg hb]
          refine filterResults_length keep k rest (acc ++ [r]) ?_
          simp only [List.length_append, List.length_cons, List.length_nil]
          omega
      · simp only [filterResults, if_neg hk]
        exact filterResults_length keep k rest acc h

theorem filterResults_all (keep : SearchResult → Bool) (k : ℕ) :
    ∀ (l acc : List SearchResult), acc.length + (l.filter keep).length < k →
      filterResults keep k acc l = acc ++ l.filter keep
  | [], acc, _ => by simp [filterResults]
  | r :: rest, acc, h => by
      by_cases hk : keep r
      · rw [List.filter_cons_of_pos hk] at h ⊢
        simp only [List.length_cons] at h
        have hb : ¬ k ≤ acc.length + 1 := by omega
        simp only [filterResults, if_pos hk, if_neg hb]
        rw [filterResults_all keep k rest (acc ++ [r])
          (by simp only [List.length_append, List.length_cons, List.length_nil]; omega)]
        simp
      · rw [List.filter_cons_of_neg hk] at h ⊢
        simp only [filterResults, if_neg hk]
        exact filterResults_all keep k rest acc h

theorem faissLabels_length (ranking : List ℕ) (k : ℕ) :
    (faissLabels ranking k).length = k := by
  simp only [faissLabels, List.length_append, List.length_map, List.length_take,
    List.length_replicate]
  omega

theorem faissDists_length (dists : List ℚ) (k : ℕ) :
    (faissDists dists k).length = k := by
  simp only [faissDists, List.length_append, List.length_take,
    List.length_replicate]
  omega

theorem embGather_length_le (transactions : List Txn) (rows : List (ℤ × ℚ)) :
    (embGather transactions rows).length ≤ rows.length :=
  List.length_filterMap_le _ _

theorem candidatesOf_length (st : VSSState) (ranking : List ℕ) (dists : List ℚ)
    (top_k : ℕ) :
    (candidatesOf st ranking dists top_k).length ≤ top_k * 2 := by
  refine le_trans (embGather_length_le _ _) ?_
  rw [List.length_zip, faissLabels_length, faissDists_length]
  omega

/-! ## Filter predicate correspondence -/

/-- The specification-side reading of the filter conjunction: every
*active* filter is satisfied (a string filter is active when it is
present and non-empty; an amount bound is active when present). -/
def passesFilters (user_id category : Option String)
    (min_amount max_amount : Option ℚ) (r : SearchResult) : Prop :=
  (∀ s, user_id = some s → s ≠ "" → r.txn.user_id = some s) ∧
  (∀ s, category = some s → s ≠ "" → r.txn.category = some s) ∧
  (∀ m, min_amount = some m → m ≤ r.txn.amount.getD 0) ∧
  (∀ m, max_amount = some m → r.txn.amount.getD 0 ≤ m)

theorem strFilter_iff (filt field : Option String) :
    ((if pyTruthy filt then field == filt else true) = true)
      ↔ (∀ s, filt = some s → s ≠ "" → field = some s) := by
  cases filt with
  | none => simp [pyTruthy]
  | some s =>
      by_cases hs : s = ""
      · subst hs
        simp [pyTruthy]
      · simp [pyTruthy, hs]

theorem minFilter_iff (mn : Option ℚ) (a : ℚ) :
    ((match mn with
      | none => true
      | some m => !(a < m) : Bool) = true)
      ↔ (∀ m, mn = some m → m ≤ a) := by
  cases mn <;> simp [not_lt]

theorem maxFilter_iff (mx : Option ℚ) (a : ℚ) :
    ((match mx with
      | none => true
      | some m => !(m < a) : Bool) = true)
      ↔ (∀ m, mx = some m → a ≤ m) := by
  cases mx <;> simp [not_lt]

theorem keepTxn_iff (user_id category : Option String)
    (min_amount max_amount : Option ℚ) (r : SearchResult) :
    keepTxn user_id category min_amount max_amount r = true
      ↔ passesFilters user_id category min_amount max_amount r := by
  unfold keepTxn passesFilters
  simp only [Bool.and_eq_true]
  rw [strFilter_iff, strFilter_iff, minFilter_iff, maxFilter_iff]
  tauto

/-! ## Claims -/

/-- Claim C6: `summarize_transactions` applied to an empty collection
returns the message-only sentinel report rather than raising, and
`generate_text_summary` applied to an empty collection returns exactly
that sentinel message string verbatim. -/
theorem C6_empty_sentinel :
    summarize_transactions [] = Summary.sentinel "No transactions to summarize" ∧
    generate_text_summary [] = "No transactions to summarize" :=
  ⟨rfl, rfl⟩

/-- Claim C3: for any non-empty transaction collection, the sum of the
`by_category` rounded totals differs from `overview.total_debit +
overview.total_credit` by at most `0.01` per category (monetary values
are rounded to two decimals only at report construction, so the
pre-rounding sums agree exactly). -/
theorem C3_category_sum_invariant (txns : List Txn) (r : Report)
    (h : summarize_transactions txns = Summary.report r) :
    |((r.by_category.map (fun p => p.2.total_amount)).sum)
        - (r.overview.total_debit + r.overview.total_credit)|
      ≤ (r.by_category.length : ℚ) * (1/100) := by
  obtain ⟨hr, hne⟩ := summarize_report_inv txns r h
  subst hr
  set acc := rollup txns with hacc
  set S : List ℚ := acc.category_stats.map (fun p => p.2.total) with hS
  have hby : (mkReport txns).by_category.map (fun p => p.2.total_amount)
      = S.map round2 := by
    simp only [mkReport, hS, List.map_map]
    rfl
  have hlen : (mkReport txns).by_category.length = S.length := by
    simp only [mkReport, hS, List.length_map]
  have htd : (mkReport txns).overview.total_debit = round2 acc.total_debit := rfl
  have htc : (mkReport txns).overview.total_credit = round2 acc.total_credit := rfl
  rw [hby, hlen, htd, htc]
  -- exact pre-rounding identity
  have hsum : S.sum = acc.total_debit + acc.total_credit := rollup_sum_eq txns
  -- the deviation is an integer number of hundredths
  set m : ℤ := (S.map (fun q => rhe (100 * q))).sum
      - rhe (100 * acc.total_debit) - rhe (100 * acc.total_credit) with hm
  have hD : (S.map round2).sum - (round2 acc.total_debit + round2 acc.total_credit)
      = (m : ℚ) / 100 := by
    rw [map_round2_sum_eq, round2, round2, hm]
    push_cast
    ring
  have hk1 : 1 ≤ S.length := by
    have : S ≠ [] := by
      simp only [hS, ne_eq, List.map_eq_nil_iff]
      exact rollup_cat_ne_nil txns hne
    cases hS' : S with
    | nil => exact absurd hS' this
    | cons a l => simp
  -- numeric bound on the deviation
  have hbound : |(S.map round2).sum
      - (round2 acc.total_debit + round2 acc.total_credit)|
      ≤ S.length * (1/200) + 1/100 := by
    have h1 := map_round2_sum_abs S
    have h2 := round2_abs acc.total_debit
    have h3 := round2_abs acc.total_credit
    have hsplit : (S.map round2).sum
        - (round2 acc.total_debit + round2 acc.total_credit)
        = ((S.map round2).sum - S.sum)
          - (round2 acc.total_debit - acc.total_debit)
          - (round2 acc.total_credit - acc.total_credit) := by
      rw [hsum]; ring
    rw [hsplit]
    have ha := abs_sub (((S.map round2).sum - S.sum)
        - (round2 acc.total_debit - acc.total_debit))
      (round2 acc.total_credit - acc.total_credit)
    have hb := abs_sub ((S.map round2).sum - S.sum)
      (round2 acc.total_debit - acc.total_debit)
    calc |((S.map round2).sum - S.sum)
          - (round2 acc.total_debit - acc.total_debit)
          - (round2 acc.total_credit - acc.total_credit)|
        ≤ |((S.map round2).sum - S.sum)
            - (round2 acc.total_debit - acc.total_debit)|
          + |round2 acc.total_credit - acc.total_credit| := by
          exact abs_sub _ _
      _ ≤ |(S.map round2).sum - S.sum|
          + |round2 acc.total_debit - acc.total_debit|
          + |round2 acc.total_credit - acc.total_credit| := by
          have := abs_sub ((S.map round2).sum - S.sum)
            (round2 acc.total_debit - acc.total_debit)
          linarith
      _ ≤ S.length * (1/200) + 1/100 := by linarith
  -- integrality tightens the bound to 0.01 per category
  have hmq : |(m : ℚ)| ≤ (S.length : ℚ) / 2 + 1 := by
    rw [hD] at hbound
    rw [abs_div, abs_of_pos (by norm_num : (0:ℚ) < 100)] at hbound
    linarith
  have hmz : 2 * |m| ≤ (S.length : ℤ) + 2 := by
    have : (2 * |m| : ℚ) ≤ (S.length : ℚ) + 2 := by
      rw [← Int.cast_abs] at hmq
      push_cast at hmq ⊢
      linarith
    exact_mod_cast this
  have hk1' : (1 : ℤ) ≤ (S.length : ℤ) := by exact_mod_cast hk1
  have hmk : |m| ≤ (S.length : ℤ) := by omega
  rw [hD, abs_div, abs_of_pos (by norm_num : (0:ℚ) < 100)]
  have hfin : |(m : ℚ)| ≤ (S.length : ℚ) := by exact_mod_cast hmk
  linarith

/-- Claim C3 witness: the invariant at the specification's
three-transaction example collection. -/
theorem C3_category_sum_invariant_witness :
    summarize_transactions exTxns = Summary.report (mkReport exTxns) ∧
    |(((mkReport exTxns).by_category.map (fun p => p.2.total_amount)).sum)
        - ((mkReport exTxns).overview.total_debit
            + (mkReport exTxns).overview.total_credit)|
      ≤ ((mkReport exTxns).by_category.length : ℚ) * (1/100) :=
  ⟨rfl, C3_category_sum_invariant exTxns (mkReport exTxns) rfl⟩

/-- Claim C4: the report's `insights.savings_rate` equals
`(total_credit - total_debit) / total_credit * 100` rounded to two
decimals when `total_credit > 0`, is exactly `0` when
`total_credit = 0`, and never exceeds `100` when all amounts are
non-negative. -/
theorem C4_savings_rate (txns : List Txn) (r : Report)
    (h : summarize_transactions txns = Summary.report r) :
    (0 < totalCredit txns →
      r.insights.savings_rate
        = round2 ((totalCredit txns - totalDebit txns) / totalCredit txns * 100)) ∧
    (totalCredit txns = 0 → r.insights.savings_rate = 0) ∧
    ((∀ t ∈ txns, 0 ≤ t.amount.getD 0) → r.insights.savings_rate ≤ 100) := by
  obtain ⟨hr, hne⟩ := summarize_report_inv txns r h
  subst hr
  have hsr : (mkReport txns).insights.savings_rate
      = if 0 < (rollup txns).total_credit then
          round2 (((rollup txns).total_credit - (rollup txns).total_debit)
            / (rollup txns).total_credit * 100)
        else 0 := rfl
  refine ⟨?_, ?_, ?_⟩
  · intro hc
    rw [totalCredit] at hc
    rw [hsr, if_pos hc]
    rfl
  · intro hc
    rw [totalCredit] at hc
    rw [hsr, if_neg (by rw [hc]; exact lt_irrefl 0)]
  · intro hpos
    obtain ⟨hd, _⟩ := rollup_debit_credit_nonneg txns hpos
    rw [hsr]
    by_cases hc : 0 < (rollup txns).total_credit
    · rw [if_pos hc]
      refine round2_le_100 _ ?_
      have hdiv : ((rollup txns).total_credit - (rollup txns).total_debit)
          / (rollup txns).total_credit ≤ 1 := by
        rw [div_le_one hc]
        linarith
      nlinarith
    · rw [if_neg hc]
      norm_num

/-- Claim C4 witness: the savings rate at the specification's example
collection is exactly `70`. -/
theorem C4_savings_rate_witness :
    summarize_transactions exTxns = Summary.report (mkReport exTxns) ∧
    0 < totalCredit exTxns ∧
    (mkReport exTxns).insights.savings_rate
      = round2 ((totalCredit exTxns - totalDebit exTxns) / totalCredit exTxns * 100) ∧
    (mkReport exTxns).insights.savings_rate = 70 := by
  have hc : 0 < totalCredit exTxns := by simp [totalCredit, rollup, step, exTxns]
  refine ⟨rfl, hc, (C4_savings_rate exTxns (mkReport exTxns) rfl).1 hc, ?_⟩
  simp [mkReport, nonIncomeTotals, rollup, step, exTxns, pyMaxSnd, pyMaxStep, bump]
  norm_num [round2, rhe, Int.fract]

/-- Claim C5: `insights.top_spending_category` is the first-encountered
non-`Income` category whose accumulated debit-plus-credit total is
largest (strictly earlier categories have strictly smaller totals), its
amount is that total rounded; if every category is `Income`, the
sentinel `"None"` with amount `0` is reported.  Each candidate total is
the sum of the amounts of the transactions of that category. -/
theorem C5_top_spending_category (txns : List Txn) (r : Report)
    (h : summarize_transactions txns = Summary.report r) :
    (nonIncomeTotals txns = [] →
      r.insights.top_spending_category = "None" ∧
      r.insights.top_spending_amount = 0) ∧
    (∀ x xs, nonIncomeTotals txns = x :: xs →
      ∃ pre p post, x :: xs = pre ++ p :: post ∧
        r.insights.top_spending_category = p.1 ∧
        r.insights.top_spending_amount = round2 p.2 ∧
        (∀ q ∈ x :: xs, q.2 ≤ p.2) ∧
        (∀ q ∈ pre, q.2 < p.2)) ∧
    (∀ q ∈ nonIncomeTotals txns,
      q.2 = ((txns.filter (fun t => t.category.getD "Unknown" == q.1)).map
        (fun t => t.amount.getD 0)).sum) := by
  obtain ⟨hr, hne⟩ := summarize_report_inv txns r h
  subst hr
  have hcat : (mkReport txns).insights.top_spending_category
      = (pyMaxSnd ("None", 0) (nonIncomeTotals txns)).1 := rfl
  have hamt : (mkReport txns).insights.top_spending_amount
      = round2 (pyMaxSnd ("None", 0) (nonIncomeTotals txns)).2 := rfl
  refine ⟨?_, ?_, ?_⟩
  · intro h0
    rw [hcat, hamt, h0]
    exact ⟨rfl, round2_zero⟩
  · intro x xs hxs
    rw [hcat, hamt, hxs]
    obtain ⟨hmax, pre, post, hsplit, hpre⟩ := pyMaxSnd_first_max ("None", 0) x xs
    exact ⟨pre, pyMaxSnd ("None", 0) (x :: xs), post, hsplit, rfl, rfl, hmax, hpre⟩
  · intro q hq
    rw [nonIncomeTotals] at hq
    obtain ⟨p, hp, hq'⟩ := List.mem_map.1 hq
    have hpmem : p ∈ (rollup txns).category_stats := List.mem_of_mem_filter hp
    have hchar := rollup_total_characterization txns p.1 p.2 hpmem
    rw [← hq']
    exact hchar

/-- Claim C5 witness: at the specification's example collection the
non-`Income` categories are `[("Food", 300)]` and the insights name
`Food` with amount `300`. -/
theorem C5_top_spending_category_witness :
    summarize_transactions exTxns = Summary.report (mkReport exTxns) ∧
    nonIncomeTotals exTxns = [("Food", 300)] ∧
    (∃ pre p post, [(("Food" : String), (300 : ℚ))] = pre ++ p :: post ∧
      (mkReport exTxns).insights.top_spending_category = p.1 ∧
      (mkReport exTxns).insights.top_spending_amount = round2 p.2 ∧
      (∀ q ∈ [(("Food" : String), (300 : ℚ))], q.2 ≤ p.2) ∧
      (∀ q ∈ pre, q.2 < p.2)) ∧
    (mkReport exTxns).insights.top_spending_category = "Food" ∧
    (mkReport exTxns).insights.top_spending_amount = 300 := by
  have hni : nonIncomeTotals exTxns = [("Food", 300)] := by
    simp [nonIncomeTotals, rollup, step, exTxns, bump]
    norm_num
  refine ⟨rfl, hni,
    (C5_top_spending_category exTxns (mkReport exTxns) rfl).2.1 _ _ hni, ?_, ?_⟩
  · simp [mkReport, nonIncomeTotals, rollup, step, exTxns, pyMaxSnd, pyMaxStep, bump]
  · simp [mkReport, nonIncomeTotals, rollup, step, exTxns, pyMaxSnd, pyMaxStep, bump]
    norm_num [round2, rhe, Int.fract]

/-- Claim C1: for every query (abstracted by the index's ranking and
distance data) and filter combination, a ready `VectorSearchService`
returns without error at most `top_k` results; every result satisfies
all active filters; the output is a subsequence of the oversampled
candidate list (similarity order preserved, no re-ranking); and when
fewer than `top_k` candidates survive filtering the whole (possibly
empty) surviving list is returned. -/
theorem C1_filtered_search (st : VSSState) (ranking : List ℕ) (dists : List ℚ)
    (top_k : ℕ) (user_id category : Option String)
    (min_amount max_amount : Option ℚ)
    (hr : st.is_ready = true) (hb : st.emb.index_built = true) :
    ∃ out,
      VectorSearchService.search st ranking dists top_k user_id category
          min_amount max_amount = Except.ok out ∧
      out.length ≤ top_k ∧
      (∀ res ∈ out, passesFilters user_id category min_amount max_amount res) ∧
      out.Sublist (candidatesOf st ranking dists top_k) ∧
      (((candidatesOf st ranking dists top_k).filter
            (keepTxn user_id category min_amount max_amount)).length < top_k →
        out = (candidatesOf st ranking dists top_k).filter
          (keepTxn user_id category min_amount max_amount)) := by
  set keep := keepTxn user_id category min_amount max_amount with hkeep
  set cands := candidatesOf st ranking dists top_k with hcands
  have hsearch : VectorSearchService.search st ranking dists top_k user_id category
      min_amount max_amount = Except.ok (filterResults keep top_k [] cands) := by
    rw [VectorSearchService.search, if_pos hr, EmbeddingService.search, if_pos hb]
    rfl
  obtain ⟨l', hdec, hsub⟩ := filterResults_decomp keep top_k cands []
  rw [List.nil_append] at hdec
  refine ⟨filterResults keep top_k [] cands, hsearch, ?_, ?_, ?_, ?_⟩
  · rcases Nat.eq_zero_or_pos top_k with h0 | hpos
    · subst h0
      have hclen : cands.length = 0 :=
        Nat.le_antisymm (by simpa using candidatesOf_length st ranking dists 0)
          (Nat.zero_le _)
      rw [List.eq_nil_of_length_eq_zero hclen]
      simp [filterResults]
    · exact filterResults_length keep top_k cands [] (by simpa using hpos)
  · intro res hres
    rw [hdec] at hres
    have hmem := List.mem_filter.1 (hsub.mem hres)
    exact (keepTxn_iff user_id category min_amount max_amount res).1 hmem.2
  · rw [hdec]
    exact hsub.trans (List.filter_sublist cands)
  · intro hlt
    rw [filterResults_all keep top_k cands [] (by simpa using hlt)]
    simp

/-- Claim C1 witness: the specification's empty-result scenario — a
ready service over one transaction of amount `5`, `top_k = 5` and
`min_amount = 1000000` — returns `Except.ok []`. -/
theorem C1_filtered_search_witness :
    vssOne.is_ready = true ∧ vssOne.emb.index_built = true ∧
    (∃ out,
      VectorSearchService.search vssOne [0] [0] 5 none none
          (some 1000000) none = Except.ok out ∧
      out.length ≤ 5 ∧
      (∀ res ∈ out, passesFilters none none (some 1000000) none res) ∧
      out.Sublist (candidatesOf vssOne [0] [0] 5) ∧
      (((candidatesOf vssOne [0] [0] 5).filter
            (keepTxn none none (some 1000000) none)).length < 5 →
        out = (candidatesOf vssOne [0] [0] 5).filter
          (keepTxn none none (some 1000000) none))) ∧
    VectorSearchService.search vssOne [0] [0] 5 none none
        (some 1000000) none = Except.ok [] := by
  refine ⟨rfl, rfl,
    C1_filtered_search vssOne [0] [0] 5 none none (some 1000000) none rfl rfl, ?_⟩
  norm_num [VectorSearchService.search, EmbeddingService.search, embGather,
    faissLabels, faissDists, pyGet, filterResults, keepTxn, pyTruthy, simScore,
    vssOne, List.zip, List.zipWith, List.filterMap, List.replicate]

/-- Claim C2 (refuted by the code): with one indexed transaction and a
requested `k = 2`, `EmbeddingService.search` does not return the single
available result — FAISS pads the label row with `-1`, the guard
`idx < len(transactions)` does not exclude it, and Python's negative
indexing resolves it to the last stored transaction, so the stored
transaction is returned twice. -/
theorem C2_search_padding_duplicate :
    embOne.transactions.length = 1 ∧
    EmbeddingService.search embOne [0] [0] 2
      = Except.ok
          [ { txn := tOnly, similarity_score := 1, distance := 0 },
            { txn := tOnly, similarity_score := simScore faissPadDist,
              distance := faissPadDist } ] := by
  constructor
  · rfl
  · norm_num [EmbeddingService.search, embGather, faissLabels, faissDists,
      pyGet, simScore, embOne, List.zip, List.zipWith, List.filterMap,
      List.replicate]

/-- Claim C7: `EmbeddingService.search` raises the index-not-built error
exactly when no index is present, and `VectorSearchService.search`
raises the not-ready error exactly when the service is not
initialized. -/
theorem C7_readiness_errors :
    (∀ (st : EmbState) (ranking : List ℕ) (dists : List ℚ) (k : ℕ),
      EmbeddingService.search st ranking dists k
          = Except.error SvcError.indexNotBuilt
        ↔ st.index_built = false) ∧
    (∀ (st : VSSState) (ranking : List ℕ) (dists : List ℚ) (k : ℕ)
        (user_id category : Option String) (min_amount max_amount : Option ℚ),
      VectorSearchService.search st ranking dists k user_id category
          min_amount max_amount = Except.error SvcError.notReady
        ↔ st.is_ready = false) := by
  constructor
  · intro st ranking dists k
    cases hb : st.index_built <;> simp [EmbeddingService.search, hb]
  · intro st ranking dists k user_id category min_amount max_amount
    cases hr : st.is_ready
    · simp [VectorSearchService.search, hr]
    · cases hb : st.emb.index_built <;>
        simp [VectorSearchService.search, EmbeddingService.search, hr, hb]

/-- Claim C7 witness: concrete states on both sides of each
equivalence. -/
theorem C7_readiness_errors_witness :
    EmbeddingService.search { index_built := false, transactions := [] } [] [] 1
      = Except.error SvcError.indexNotBuilt ∧
    EmbeddingService.search embOne [0] [0] 1
      ≠ Except.error SvcError.indexNotBuilt ∧
    VectorSearchService.search { is_ready := false, emb := embOne } [] [] 1
        none none none none = Except.error SvcError.notReady ∧
    VectorSearchService.search vssOne [0] [0] 1 none none none none
      ≠ Except.error SvcError.notReady := by
  refine ⟨(C7_readiness_errors.1 _ [] [] 1).2 rfl, ?_,
    (C7_readiness_errors.2 _ [] [] 1 none none none none).2 rfl, ?_⟩
  · intro hcon
    have h := (C7_readiness_errors.1 embOne [0] [0] 1).1 hcon
    simp [embOne] at h
  · intro hcon
    have h := (C7_readiness_errors.2 vssOne [0] [0] 1 none none none none).1 hcon
    simp [vssOne] at h

/-- Claim C8: the similarity score attached to each result is
`1 / (1 + d)`: it is `1` at distance `0`, the denominator is nonzero for
`d ≥ 0`, the score lies in `(0, 1]`, and it strictly decreases as the
distance grows. -/
theorem C8_similarity_score (d1 d2 : ℚ) (h1 : 0 ≤ d1) (h2 : d1 < d2) :
    simScore 0 = 1 ∧ 1 + d1 ≠ 0 ∧ 0 < simScore d1 ∧ simScore d1 ≤ 1 ∧
    simScore d2 < simScore d1 := by
  have hp1 : 0 < 1 + d1 := by linarith
  have hp2 : 0 < 1 + d2 := by linarith
  refine ⟨by norm_num [simScore], by linarith, ?_, ?_, ?_⟩
  · exact div_pos one_pos hp1
  · rw [simScore, div_le_one hp1]
    linarith
  · rw [simScore, simScore]
    exact div_lt_div_of_pos_left one_pos hp1 (by linarith)

/-- Claim C8 witness: the score properties at distances `0` and `1`. -/
theorem C8_similarity_score_witness :
    (0 : ℚ) ≤ 0 ∧ (0 : ℚ) < 1 ∧
    (simScore 0 = 1 ∧ 1 + (0 : ℚ) ≠ 0 ∧ 0 < simScore 0 ∧ simScore 0 ≤ 1 ∧
      simScore 1 < simScore 0) :=
  ⟨le_refl 0, by norm_num, C8_similarity_score 0 1 (le_refl 0) (by norm_num)⟩

/-- Claim C9 counterexample: on the all-empty transaction the `type` and
`payment_method` fields are empty, yet the built text still contains the
`Type:` and `Payment:` segments derived from them — an empty field does
not always cause its segment to be omitted. -/
theorem C9_counterexample :
    tEmpty.type.getD "" = "" ∧ tEmpty.payment_method.getD "" = "" ∧
    ("Type: " ++ tEmpty.type.getD "")
      ∈ (segments tEmpty).filter (fun p => p ≠ "") ∧
    ("Payment: " ++ tEmpty.payment_method.getD "")
      ∈ (segments tEmpty).filter (fun p => p ≠ "") ∧
    create_transaction_text tEmpty = "Amount: 0 INR | Type:  | Payment: " := by
  refine ⟨rfl, rfl, ?_, ?_, rfl⟩ <;> decide

theorem string_append_ne_empty (a b : String) (ha : a ≠ "") : a ++ b ≠ "" := by
  intro h
  apply ha
  have hd := congrArg String.data h
  rw [String.data_append] at hd
  have hnil : a.data = [] := (List.append_eq_nil.1 hd).1
  cases a
  cases hnil
  rfl

/-- Claim C9 (amended): the text is the candidate segments joined by
`" | "` where a candidate survives exactly when its *segment string* is
non-empty: the four plain text fields and notes are kept iff the field
itself is non-empty, while the `Amount:`, `Type:` and `Payment:`
segments are always kept, because their fixed prefixes make the segment
non-empty even when the underlying field is empty. -/
theorem C9_amended_segments (t : Txn) :
    ∃ kept, create_transaction_text t = " | ".intercalate kept ∧
      kept = (segments t).filter (fun p => p ≠ "") ∧
      ("Amount: " ++ ratRepr (t.amount.getD 0) ++ " " ++ t.currency.getD "INR")
        ∈ kept ∧
      ("Type: " ++ t.type.getD "") ∈ kept ∧
      ("Payment: " ++ t.payment_method.getD "") ∈ kept ∧
      (t.description.getD "" ≠ "" → t.description.getD "" ∈ kept) ∧
      (t.category.getD "" ≠ "" → t.category.getD "" ∈ kept) ∧
      (t.subcategory.getD "" ≠ "" → t.subcategory.getD "" ∈ kept) ∧
      (t.merchant.getD "" ≠ "" → t.merchant.getD "" ∈ kept) ∧
      (t.notes.getD "" ≠ "" → t.notes.getD "" ∈ kept) ∧
      ("" : String) ∉ kept := by
  refine ⟨(segments t).filter (fun p => p ≠ ""), rfl, rfl, ?_, ?_, ?_,
    ?_, ?_, ?_, ?_, ?_, ?_⟩
  · have hne : ("Amount: " ++ ratRepr (t.amount.getD 0) ++ " "
        ++ t.currency.getD "INR") ≠ "" :=
      string_append_ne_empty _ _ (string_append_ne_empty _ _
        (string_append_ne_empty _ _ (by decide)))
    exact List.mem_filter.2 ⟨by simp [segments], by simpa using hne⟩
  · have hne : ("Type: " ++ t.type.getD "") ≠ "" :=
      string_append_ne_empty _ _ (by decide)
    exact List.mem_filter.2 ⟨by simp [segments], by simpa using hne⟩
  · have hne : ("Payment: " ++ t.payment_method.getD "") ≠ "" :=
      string_append_ne_empty _ _ (by decide)
    exact List.mem_filter.2 ⟨by simp [segments], by simpa using hne⟩
  · intro h
    exact List.mem_filter.2 ⟨by simp [segments], by simpa using h⟩
  · intro h
    exact List.mem_filter.2 ⟨by simp [segments], by simpa using h⟩
  · intro h
    exact List.mem_filter.2 ⟨by simp [segments], by simpa using h⟩
  · intro h
    exact List.mem_filter.2 ⟨by simp [segments], by simpa using h⟩
  · intro h
    exact List.mem_filter.2 ⟨by simp [segments], by simpa using h⟩
  · intro h
    have := (List.mem_filter.1 h).2
    simp at this

/-- Claim C9 amended-claim witness: the amended statement instantiated
at the all-empty transaction. -/
theorem C9_amended_segments_witness :
    ∃ kept, create_transaction_text tEmpty = " | ".intercalate kept ∧
      kept = (segments tEmpty).filter (fun p => p ≠ "") ∧
      ("Amount: " ++ ratRepr (tEmpty.amount.getD 0) ++ " "
          ++ tEmpty.currency.getD "INR") ∈ kept ∧
      ("Type: " ++ tEmpty.type.getD "") ∈ kept ∧
      ("Payment: " ++ tEmpty.payment_method.getD "") ∈ kept ∧
      (tEmpty.description.getD "" ≠ "" → tEmpty.description.getD "" ∈ kept) ∧
      (tEmpty.category.getD "" ≠ "" → tEmpty.category.getD "" ∈ kept) ∧
      (tEmpty.subcategory.getD "" ≠ "" → tEmpty.subcategory.getD "" ∈ kept) ∧
      (tEmpty.merchant.getD "" ≠ "" → tEmpty.merchant.getD "" ∈ kept) ∧
      (tEmpty.notes.getD "" ≠ "" → tEmpty.notes.getD "" ∈ kept) ∧
      ("" : String) ∉ kept :=
  C9_amended_segments tEmpty

/-- Claim C10: passing `some ""` as the `user_id` (or `category`) filter
behaves exactly as passing no filter at all: the search results are
identical for every state, query and remaining filter combination. -/
theorem C10_empty_string_filter_unset (st : VSSState) (ranking : List ℕ)
    (dists : List ℚ) (top_k : ℕ) (user_id category : Option String)
    (min_amount max_amount : Option ℚ) :
    VectorSearchService.search st ranking dists top_k (some "") category
        min_amount max_amount
      = VectorSearchService.search st ranking dists top_k none category
          min_amount max_amount ∧
    VectorSearchService.search st ranking dists top_k user_id (some "")
        min_amount max_amount
      = VectorSearchService.search st ranking dists top_k user_id none
          min_amount max_amount := by
  have h1 : keepTxn (some "") category min_amount max_amount
      = keepTxn none category min_amount max_amount := by
    funext r
    rfl
  have h2 : keepTxn user_id (some "") min_amount max_amount
      = keepTxn user_id none min_amount max_amount := by
    funext r
    unfold keepTxn pyTruthy
    norm_num
  constructor
  · simp only [VectorSearchService.search, h1]
  · simp only [VectorSearchService.search, h2]

end FinAssist
